import Mathlib

/-!
# Verification of the elyse repository

The repository ships a single source file, `setup.py`, with the packaging
metadata of "elyse", a simple static website generator. The first part of
this file embeds that script: the metadata record passed to `setup(...)`,
the fallback import from `setuptools` to `distutils.core`, and the
unconditional read of `README.rst` that produces the long description.

The build pipeline itself (ContentLoader, TemplateResolver, Renderer,
SiteModel, BuildPipeline) has no source in the repository; its components are
modelled from the specification, each such definition marked
"Modelled from the spec:" in its doc comment.
-/

/-- The keyword arguments of the `setup(...)` call in `setup.py`
(src/setup.py lines 9-35). -/
structure SetupArgs where
  name : String
  version : String
  description : String
  author : String
  author_email : String
  license : String
  long_description : String
  scripts : List String
  install_requires : List String
  classifiers : List String
deriving DecidableEq

/-- The argument record built by `setup.py`, literal field by literal field;
`long_description` is the text read from `README.rst` and is the one
argument that depends on the environment. -/
def elyseArgs (longDesc : String) : SetupArgs where
  name := "elyse"
  version := "0.1.0"
  description := "A simple static website generator."
  author := "Frank Smit"
  author_email := "frank@61924.nl"
  license := "MIT"
  long_description := longDesc
  scripts := ["elyse"]
  install_requires := ["pyyaml", "tornado", "houdini.py", "misaka", "pygments", "unidecode"]
  classifiers :=
    ["Development Status :: 4 - Beta",
     "Intended Audience :: Developers",
     "License :: OSI Approved :: MIT License",
     "Programming Language :: Python :: 2.7",
     "Programming Language :: Python :: 3.2",
     "Topic :: Text Processing",
     "Topic :: Utilities"]

/-- Where the `setup` function came from: `setup.py` first tries
`from setuptools import setup` and, only when that raises `ImportError`,
falls back to `from distutils.core import setup`. -/
inductive SetupProvider where
  | setuptools
  | distutilsCore
deriving DecidableEq

/-- The fallback of `setup.py` lines 3-6: `setuptools` when that
module resolves, `distutils.core` otherwise. -/
def chooseSetupProvider (setuptoolsAvailable : Bool) : SetupProvider :=
  if setuptoolsAvailable then .setuptools else .distutilsCore

/-- What executing `setup.py` does: either the metadata was registered with
one `setup(...)` call, or the script died earlier with an I/O error while
reading a file. -/
inductive ScriptOutcome where
  | registered (provider : SetupProvider) (args : SetupArgs)
  | fileReadError (path : String)
deriving DecidableEq

/-- Executing `setup.py` over a filesystem `fs` (a partial map from path to
file content). The script resolves the `setup` import, then evaluates the
arguments of the single `setup(...)` call; evaluating them opens and reads
`README.rst` (line 16, `open('README.rst').read()`), so a missing
`README.rst` raises an I/O error before `setup` is ever invoked and nothing
is registered. -/
def runSetupScript (setuptoolsAvailable : Bool) (fs : String → Option String) :
    ScriptOutcome :=
  let provider := chooseSetupProvider setuptoolsAvailable
  match fs "README.rst" with
  | none => .fileReadError "README.rst"
  | some readme => .registered provider (elyseArgs readme)

/-- The metadata an execution registered, when it registered any. -/
def registeredArgs : ScriptOutcome → Option SetupArgs
  | .registered _ args => some args
  | .fileReadError _ => none

/-! ## The build pipeline, modelled from the spec

No pipeline source ships with the repository; everything below is built from
the specification's component contracts (spec sections 2-4 and 7-8). Where
the spec leaves a policy open (metadata-block syntax, per-directory template
convention, slug alphabet, collision handling) a concrete deterministic
policy is chosen, as the spec instructs implementers to do. -/

/-- Modelled from the spec: one file of the source tree. `content = none`
models an I/O failure while reading the file (`UnreadableSource`). -/
structure SourceFile where
  path : String
  content : Option String
deriving DecidableEq

/-- Modelled from the spec: global site configuration — site title, base
URL, output directory, the site-wide default template and the set of
template names that exist in the templates directory. -/
structure SiteConfig where
  siteTitle : String
  baseUrl : String
  outputDir : String
  defaultTemplate : String
  templates : List String
deriving DecidableEq

/-- Modelled from the spec: a source root — content files plus the
configuration. -/
structure SourceTree where
  files : List SourceFile
  config : SiteConfig
deriving DecidableEq

/-- Modelled from the spec: the error taxonomy of section 7, each error
tagged with the path of the file it concerns. -/
inductive BuildError where
  | unreadableSource (path : String)
  | malformedMetadata (path : String)
  | templateNotFound (path : String)
  | renderError (path : String)
  | writeError (path : String)
deriving DecidableEq

/-- Modelled from the spec: a parsed source document — source path, metadata
mapping and raw body; immutable within one build pass. -/
structure Document where
  srcPath : String
  meta : List (String × String)
  body : String
deriving DecidableEq

/-- First value bound to a key in a metadata mapping. -/
def lookupMeta (meta : List (String × String)) (key : String) : Option String :=
  match meta with
  | [] => none
  | (k, v) :: rest => if key = k then some v else lookupMeta rest key

/-- Split a character list on a separator character; like `String.splitOn`
with a one-character separator, but structurally recursive. -/
def splitChars (sep : Char) : List Char → List (List Char)
  | [] => [[]]
  | c :: cs =>
    if c = sep then [] :: splitChars sep cs
    else
      match splitChars sep cs with
      | [] => [[c]]
      | r :: rs => (c :: r) :: rs

/-- Split a string on a separator character. -/
def splitStr (sep : Char) (s : String) : List String :=
  (splitChars sep s.data).map String.mk

/-- Drop spaces from both ends of a string. -/
def trimStr (s : String) : String :=
  ⟨((s.data.dropWhile (· = ' ')).reverse.dropWhile (· = ' ')).reverse⟩

/-- Join strings with a separator. -/
def joinWith (sep : String) : List String → String
  | [] => ""
  | [s] => s
  | s :: rest => s ++ sep ++ joinWith sep rest

/-- The value of a decimal digit character. -/
def digitVal (c : Char) : Option Nat :=
  if '0' ≤ c ∧ c ≤ '9' then some (c.toNat - '0'.toNat) else none

/-- Read a digit list as a decimal number. -/
def charsToNatAux (acc : Nat) : List Char → Option Nat
  | [] => some acc
  | c :: cs =>
    match digitVal c with
    | some d => charsToNatAux (acc * 10 + d) cs
    | none => none

/-- Read a non-empty all-digit string as a decimal number. -/
def parseNat (s : String) : Option Nat :=
  match s.data with
  | [] => none
  | l => charsToNatAux 0 l

/-- Modelled from the spec: parse one metadata line as `key: value`;
a line with no colon is not a key-value pair. -/
def parseMetaLine (line : String) : Option (String × String) :=
  match splitStr ':' line with
  | [] => none
  | [_] => none
  | k :: rest => some (trimStr k, trimStr (joinWith ":" rest))

/-- Parse every line of a metadata block, failing when any line fails. -/
def parseMetaLines : List String → Option (List (String × String))
  | [] => some []
  | l :: ls =>
    match parseMetaLine l, parseMetaLines ls with
    | some kv, some rest => some (kv :: rest)
    | _, _ => none

/-- Split lines at the closing "---" delimiter of a metadata block:
`some (block, body)` on the first "---", `none` when the delimiter is
never closed. -/
def splitAtClose : List String → Option (List String × List String)
  | [] => none
  | l :: ls =>
    if l = "---" then some ([], ls)
    else
      match splitAtClose ls with
      | some (block, body) => some (l :: block, body)
      | none => none

/-- Modelled from the spec (ContentLoader, section 4.1): read one source
file into a Document. An unreadable file yields `UnreadableSource`; a
metadata block that is opened with "---" but never closed, or that contains
a line that is not a key-value pair, yields `MalformedMetadata`; a file with
no leading "---" is all body with empty metadata. -/
def loadDocument (f : SourceFile) : Except BuildError Document :=
  match f.content with
  | none => .error (.unreadableSource f.path)
  | some text =>
    match splitStr '\n' text with
    | "---" :: rest =>
      match splitAtClose rest with
      | none => .error (.malformedMetadata f.path)
      | some (block, bodyLines) =>
        match parseMetaLines block with
        | none => .error (.malformedMetadata f.path)
        | some meta => .ok ⟨f.path, meta, joinWith "\n" bodyLines⟩
    | _ => .ok ⟨f.path, [], text⟩

/-- Modelled from the spec: load every file, collecting the loaded
Documents and the per-file errors without aborting the pass. -/
def loadAll (files : List SourceFile) : List Document × List BuildError :=
  match files with
  | [] => ([], [])
  | f :: rest =>
    match loadDocument f with
    | .ok d => (d :: (loadAll rest).1, (loadAll rest).2)
    | .error e => ((loadAll rest).1, e :: (loadAll rest).2)

/-- Modelled from the spec: the transliteration table of the
Unicode-to-ASCII step of slug generation — uppercase ASCII folds to
lowercase, common accented Latin letters fold to their base letter. -/
def trTable : List (Char × Char) :=
  [('A', 'a'), ('B', 'b'), ('C', 'c'), ('D', 'd'), ('E', 'e'), ('F', 'f'),
   ('G', 'g'), ('H', 'h'), ('I', 'i'), ('J', 'j'), ('K', 'k'), ('L', 'l'),
   ('M', 'm'), ('N', 'n'), ('O', 'o'), ('P', 'p'), ('Q', 'q'), ('R', 'r'),
   ('S', 's'), ('T', 't'), ('U', 'u'), ('V', 'v'), ('W', 'w'), ('X', 'x'),
   ('Y', 'y'), ('Z', 'z'),
   ('à', 'a'), ('á', 'a'), ('â', 'a'), ('ä', 'a'), ('ã', 'a'), ('å', 'a'),
   ('è', 'e'), ('é', 'e'), ('ê', 'e'), ('ë', 'e'),
   ('ì', 'i'), ('í', 'i'), ('î', 'i'), ('ï', 'i'),
   ('ò', 'o'), ('ó', 'o'), ('ô', 'o'), ('ö', 'o'), ('õ', 'o'),
   ('ù', 'u'), ('ú', 'u'), ('û', 'u'), ('ü', 'u'),
   ('ç', 'c'), ('ñ', 'n'), ('ý', 'y')]

/-- A character that may appear in a slug: lowercase ASCII letter, ASCII
digit, or hyphen. -/
def isSlugChar (c : Char) : Bool :=
  ('a' ≤ c && c ≤ 'z') || ('0' ≤ c && c ≤ '9') || c = '-'

/-- Look a character up in a transliteration table. -/
def lookupTr : List (Char × Char) → Char → Option Char
  | [], _ => none
  | (k, v) :: rest, c => if c = k then some v else lookupTr rest c

/-- Modelled from the spec: transliterate one character of a title. Slug
characters stay, a space becomes a hyphen, table characters fold to their
ASCII base letter, everything else is dropped. -/
def translitChar (c : Char) : List Char :=
  if isSlugChar c then [c]
  else if c = ' ' then ['-']
  else
    match lookupTr trTable c with
    | some d => [d]
    | none => []

/-- Modelled from the spec: derive the URL-safe ASCII slug of a title by
transliterating it character by character. -/
def slugify (title : String) : String :=
  ⟨title.data.flatMap translitChar⟩

/-- The filename stem of a path: basename without its extension; default
source of a missing title. -/
def pathStem (path : String) : String :=
  let base := (splitStr '/' path).getLastD path
  (splitStr '.' base).headD base

/-- Modelled from the spec: a Document's title — the `title` metadata key,
defaulted from the filename. -/
def docTitle (d : Document) : String :=
  (lookupMeta d.meta "title").getD (pathStem d.srcPath)

/-- Modelled from the spec: a Document's date — the `date` metadata key read
as a number, defaulted to 0. -/
def docDate (d : Document) : Nat :=
  ((lookupMeta d.meta "date").bind parseNat).getD 0

/-- Modelled from the spec: a Document's tags — the `tags` metadata key split
on commas. -/
def docTags (d : Document) : List String :=
  match lookupMeta d.meta "tags" with
  | none => []
  | some s => (splitStr ',' s).map trimStr

/-- Modelled from the spec: the derived output path of a Document — the slug
of its title plus the `.html` extension. -/
def docOutPath (d : Document) : String :=
  slugify (docTitle d) ++ ".html"

/-- The directory of a source path, when the path has one. -/
def docDir (path : String) : Option String :=
  match splitStr '/' path with
  | [] => none
  | [_] => none
  | d :: _ => some d

/-- Modelled from the spec (TemplateResolver, section 4.2): the template
candidates of a Document in resolution order — the explicit `template`
metadata reference, then the per-directory convention (the template named
after the document's directory), then the site-wide default. -/
def templateCandidates (cfg : SiteConfig) (d : Document) : List String :=
  (lookupMeta d.meta "template").toList
    ++ ((docDir d.srcPath).map (fun dir => dir ++ ".html")).toList
    ++ [cfg.defaultTemplate]

/-- First candidate that names an existing template. -/
def firstExisting (existing : List String) : List String → Option String
  | [] => none
  | c :: cs => if c ∈ existing then some c else firstExisting existing cs

/-- Modelled from the spec: resolve the template of a Document — the first
existing candidate, else `TemplateNotFound` for that document. -/
def resolveTemplate (cfg : SiteConfig) (d : Document) : Except BuildError String :=
  match firstExisting cfg.templates (templateCandidates cfg d) with
  | some t => .ok t
  | none => .error (.templateNotFound d.srcPath)

/-- Modelled from the spec: the external HTML-escaping library, treated as a
pure function on text. -/
def escapeChar (c : Char) : List Char :=
  if c = '<' then "&lt;".data
  else if c = '>' then "&gt;".data
  else if c = '&' then "&amp;".data
  else [c]

/-- Escape a whole string for inclusion in HTML. -/
def escapeHtml (s : String) : String :=
  ⟨s.data.flatMap escapeChar⟩

/-- Modelled from the spec: the external Markdown backend, treated as a pure
function from body text to an HTML fragment. -/
def markdownToHtml (text : String) : String :=
  "<p>" ++ escapeHtml text ++ "</p>"

/-- Modelled from the spec: a Document together with its final HTML and the
output path it will be written to. -/
structure RenderedPage where
  outPath : String
  html : String
deriving DecidableEq

/-- Modelled from the spec: apply a named template to a rendered body plus
site-wide context, producing the final HTML of a page. -/
def applyTemplate (tname : String) (cfg : SiteConfig) (title html : String) : String :=
  "<!-- template: " ++ tname ++ " --><title>"
    ++ escapeHtml (cfg.siteTitle ++ ": " ++ title) ++ "</title>" ++ html

/-- Modelled from the spec: render one Document — resolve its template and
turn its body into final HTML at its derived output path. -/
def renderDocument (cfg : SiteConfig) (d : Document) : Except BuildError RenderedPage :=
  match resolveTemplate cfg d with
  | .error e => .error e
  | .ok tname =>
    .ok ⟨docOutPath d, applyTemplate tname cfg (docTitle d) (markdownToHtml d.body)⟩

/-- Modelled from the spec: render every Document, recording per-document
errors without aborting the pass. -/
def renderAll (cfg : SiteConfig) (docs : List Document) :
    List RenderedPage × List BuildError :=
  match docs with
  | [] => ([], [])
  | d :: rest =>
    match renderDocument cfg d with
    | .ok p => (p :: (renderAll cfg rest).1, (renderAll cfg rest).2)
    | .error e => ((renderAll cfg rest).1, e :: (renderAll cfg rest).2)

/-- The sort key of the SiteModel's chronological ordering: date first, then
source path as a deterministic tiebreak. -/
def docKey (d : Document) : Lex (Nat × String) :=
  toLex (docDate d, d.srcPath)

/-- Chronological order on Documents, by sort key. -/
def docLe (a b : Document) : Prop :=
  docKey a ≤ docKey b

instance : DecidableRel docLe :=
  fun a b => inferInstanceAs (Decidable (docKey a ≤ docKey b))

/-- Modelled from the spec (SiteModel, section 4.4): the chronological
ordering of the Document set, a sort by date with the source path as
tiebreak. -/
def chron (docs : List Document) : List Document :=
  List.insertionSort docLe docs

/-- Modelled from the spec: every tag of the site, in order of first
appearance in the chronological ordering. -/
def siteTags (docs : List Document) : List String :=
  (((chron docs).map docTags).flatten).dedup

/-- Modelled from the spec: the tag index — for every tag, the source paths
of the documents carrying it, in chronological order. -/
def tagIndex (docs : List Document) : List (String × List String) :=
  (siteTags docs).map fun t =>
    (t, ((chron docs).filter (fun d => decide (t ∈ docTags d))).map Document.srcPath)

/-- The successor links read off an ordered document list. -/
def chainAux : List Document → List (String × Option String)
  | [] => []
  | [d] => [(d.srcPath, none)]
  | d :: d2 :: rest => (d.srcPath, some d2.srcPath) :: chainAux (d2 :: rest)

/-- Modelled from the spec: the "next" chain of the site — each document's
source path with the path of the chronologically next document. -/
def nextChain (docs : List Document) : List (String × Option String) :=
  chainAux (chron docs)

/-- Modelled from the spec: write pages to the output tree, tracking which
output paths are already written; a page whose output path is already taken
yields a `WriteError` and is not written, so no page silently overwrites
another. -/
def writePagesAux : List RenderedPage → List String → List RenderedPage × List BuildError
  | [], _ => ([], [])
  | p :: rest, written =>
    if p.outPath ∈ written then
      ((writePagesAux rest written).1,
       .writeError p.outPath :: (writePagesAux rest written).2)
    else
      (p :: (writePagesAux rest (p.outPath :: written)).1,
       (writePagesAux rest (p.outPath :: written)).2)

/-- Modelled from the spec: the write step over a fresh output directory. -/
def writeAll (pages : List RenderedPage) : List RenderedPage × List BuildError :=
  writePagesAux pages []

/-- Modelled from the spec: the outcome of a build pass — the output tree
(written pages) and every error recorded along the way. -/
structure BuildResult where
  outputs : List RenderedPage
  errors : List BuildError
deriving DecidableEq

/-- Modelled from the spec: the overall-success flag surfaced to the
external caller — true exactly when no error was recorded. -/
def overallSuccess (r : BuildResult) : Bool :=
  r.errors.isEmpty

/-- Modelled from the spec (BuildPipeline, section 4.5): the states of the
build state machine `Idle -> Loading -> Modeling -> Rendering -> Writing ->
Done`, each carrying the data the pass has produced so far. `failed` is the
absorbing state of the "abort on any error" mode; the default best-effort
mode modelled by the step relation below never enters it. -/
inductive BuildState where
  | idle (tree : SourceTree)
  | loading (tree : SourceTree)
  | modeling (cfg : SiteConfig) (docs : List Document) (errors : List BuildError)
  | rendering (cfg : SiteConfig) (docs : List Document) (errors : List BuildError)
  | writing (pages : List RenderedPage) (errors : List BuildError)
  | done (result : BuildResult)
  | failed (errors : List BuildError)
deriving DecidableEq

/-- Modelled from the spec: one step of the best-effort build pipeline —
load all files, build the SiteModel (chronological ordering), render every
document, write every page, collecting errors throughout. -/
inductive BStep : BuildState → BuildState → Prop where
  | start (t : SourceTree) : BStep (.idle t) (.loading t)
  | load (t : SourceTree) :
      BStep (.loading t) (.modeling t.config (loadAll t.files).1 (loadAll t.files).2)
  | model (cfg : SiteConfig) (docs : List Document) (errs : List BuildError) :
      BStep (.modeling cfg docs errs) (.rendering cfg (chron docs) errs)
  | render (cfg : SiteConfig) (docs : List Document) (errs : List BuildError) :
      BStep (.rendering cfg docs errs)
        (.writing (renderAll cfg docs).1 (errs ++ (renderAll cfg docs).2))
  | write (pages : List RenderedPage) (errs : List BuildError) :
      BStep (.writing pages errs) (.done ⟨(writeAll pages).1, errs ++ (writeAll pages).2⟩)

/-- A build pass: any number of pipeline steps. -/
def BRun : BuildState → BuildState → Prop :=
  Relation.ReflTransGen BStep

/-- The pages the pipeline hands to the write step. -/
def renderedPages (t : SourceTree) : List RenderedPage :=
  (renderAll t.config (chron (loadAll t.files).1)).1

/-- The result of one complete best-effort build pass over a source tree:
the composition of the pipeline's five steps. -/
def pipelineResult (t : SourceTree) : BuildResult :=
  ⟨(writeAll (renderedPages t)).1,
   ((loadAll t.files).2 ++ (renderAll t.config (chron (loadAll t.files).1)).2)
     ++ (writeAll (renderedPages t)).2⟩

deriving instance DecidableEq for Except

/-- A sample configuration whose only template is the site default. -/
def sampleCfg : SiteConfig :=
  ⟨"Site", "http://example.org", "out", "post.html", ["post.html"]⟩

/-- A sample three-file source tree whose second file opens a metadata block
and never closes it. -/
def sampleTree3 : SourceTree where
  files :=
    [⟨"a.md", some "---\ntitle: Alpha\ndate: 1\n---\nbody a"⟩,
     ⟨"bad.md", some "---\ntitle: broken"⟩,
     ⟨"c.md", some "---\ntitle: Gamma\ndate: 2\n---\nbody c"⟩]
  config := sampleCfg

/-- A sample loaded document dated 1 with tags x and y. -/
def docA : Document :=
  ⟨"a.md", [("title", "Alpha"), ("date", "1"), ("tags", "x, y")], "body a"⟩

/-- A sample loaded document dated 2 with tag y. -/
def docC : Document :=
  ⟨"c.md", [("title", "Gamma"), ("date", "2"), ("tags", "y")], "body c"⟩

/-! ## Theorems -/

/-- C1: the packaging metadata declares exactly six runtime dependencies —
pyyaml, houdini.py, misaka, pygments, tornado and unidecode — and no
others: `install_requires` has six entries and membership in it is exactly
membership in that six-element set. -/
theorem install_requires_exactly_six (longDesc : String) :
    (elyseArgs longDesc).install_requires.length = 6 ∧
    ∀ s, s ∈ (elyseArgs longDesc).install_requires ↔
      (s = "pyyaml" ∨ s = "houdini.py" ∨ s = "misaka" ∨ s = "pygments" ∨
       s = "tornado" ∨ s = "unidecode") := by
  refine ⟨rfl, fun s => ?_⟩
  simp only [elyseArgs, List.mem_cons, List.not_mem_nil, or_false]
  tauto

/-- C8: the packaging metadata describes the tool exactly as "A simple
static website generator.", and carries an author, a non-empty dependency
list and non-empty classifiers. -/
theorem setup_description_and_metadata (longDesc : String) :
    (elyseArgs longDesc).description = "A simple static website generator." ∧
    (elyseArgs longDesc).author = "Frank Smit" ∧
    (elyseArgs longDesc).install_requires ≠ [] ∧
    (elyseArgs longDesc).classifiers ≠ [] := by
  refine ⟨rfl, rfl, ?_, ?_⟩ <;> simp [elyseArgs]

/-- C9: executing `setup.py` reads `README.rst` before `setup` is invoked;
over a filesystem with no `README.rst` the script raises the I/O error and
registers no packaging metadata, whichever import branch was taken. -/
theorem missing_readme_aborts_setup (setuptoolsAvailable : Bool)
    (fs : String → Option String) (h : fs "README.rst" = none) :
    runSetupScript setuptoolsAvailable fs = .fileReadError "README.rst" ∧
    registeredArgs (runSetupScript setuptoolsAvailable fs) = none := by
  simp [runSetupScript, h, registeredArgs]

/-- Witness for C9 at the empty filesystem. -/
theorem missing_readme_aborts_setup_witness :
    runSetupScript true (fun _ => none) = .fileReadError "README.rst" ∧
    registeredArgs (runSetupScript true (fun _ => none)) = none :=
  missing_readme_aborts_setup true (fun _ => none) rfl

/-- C10: the import fallback picks `setuptools` exactly when that import
succeeds and `distutils.core` otherwise, and the metadata registered by the
single `setup(...)` call is the same whichever import succeeded. -/
theorem setup_args_independent_of_provider (a b : Bool) (fs : String → Option String) :
    chooseSetupProvider true = .setuptools ∧
    chooseSetupProvider false = .distutilsCore ∧
    registeredArgs (runSetupScript a fs) = registeredArgs (runSetupScript b fs) := by
  refine ⟨rfl, rfl, ?_⟩
  cases h : fs "README.rst" <;> simp [runSetupScript, h, registeredArgs]

/-- A successful transliteration-table lookup is a pair of the table. -/
theorem lookupTr_mem : ∀ (tbl : List (Char × Char)) (c d : Char),
    lookupTr tbl c = some d → (c, d) ∈ tbl := by
  intro tbl
  induction tbl with
  | nil => intro c d h; exact absurd h (by simp [lookupTr])
  | cons p rest ih =>
    intro c d h
    obtain ⟨k, v⟩ := p
    by_cases hc : c = k
    · subst hc
      simp only [lookupTr, if_pos rfl] at h
      injection h with h
      subst h
      exact List.mem_cons_self _ _
    · simp only [lookupTr, if_neg hc] at h
      exact List.mem_cons_of_mem _ (ih c d h)

/-- Every target of the transliteration table is a slug character. -/
theorem trTable_slugChars : ∀ p ∈ trTable, isSlugChar p.2 = true := by decide

/-- Every character that transliteration emits is its own transliteration. -/
theorem translitChar_fixed {c d : Char} (h : d ∈ translitChar c) :
    translitChar d = [d] := by
  have hself : ∀ e : Char, isSlugChar e = true → translitChar e = [e] := by
    intro e he
    simp [translitChar, he]
  unfold translitChar at h
  by_cases h1 : isSlugChar c = true
  · rw [if_pos h1, List.mem_singleton] at h
    subst h
    exact hself _ h1
  · rw [if_neg h1] at h
    by_cases h2 : c = ' '
    · rw [if_pos h2, List.mem_singleton] at h
      subst h
      exact hself '-' (by decide)
    · rw [if_neg h2] at h
      cases hl : lookupTr trTable c with
      | none => rw [hl] at h; simp at h
      | some e =>
        rw [hl, List.mem_singleton] at h
        subst h
        exact hself _ (trTable_slugChars _ (lookupTr_mem trTable c _ hl))

/-- A list of fixed points of transliteration is unchanged by it. -/
theorem flatMap_translit_fixed : ∀ l : List Char,
    (∀ d ∈ l, translitChar d = [d]) → l.flatMap translitChar = l := by
  intro l h
  induction l with
  | nil => rfl
  | cons c cs ih =>
    rw [List.flatMap_cons, h c (List.mem_cons_self _ _),
      ih (fun d hd => h d (List.mem_cons_of_mem _ hd))]
    rfl

/-- Every character of a slug is a fixed point of transliteration. -/
theorem slug_chars_fixed (t : String) : ∀ d ∈ (slugify t).data, translitChar d = [d] := by
  intro d hd
  obtain ⟨c, _, hc⟩ := List.mem_flatMap.mp hd
  exact translitChar_fixed hc

/-- C5: slug generation transliterates Unicode titles to ASCII — "café"
slugifies to "cafe", "cafe" to itself — and is idempotent on every title. -/
theorem slugify_ascii_idempotent :
    slugify "café" = "cafe" ∧ slugify "cafe" = "cafe" ∧
    ∀ t : String, slugify (slugify t) = slugify t := by
  refine ⟨by decide, by decide, fun t => ?_⟩
  have hmk : ∀ s : String, String.mk s.data = s := fun ⟨l⟩ => rfl
  show String.mk ((slugify t).data.flatMap translitChar) = slugify t
  rw [flatMap_translit_fixed _ (slug_chars_fixed t), hmk]

/-- `firstExisting` finds nothing exactly when no candidate exists. -/
theorem firstExisting_eq_none_iff (existing : List String) :
    ∀ cs : List String,
    (firstExisting existing cs = none ↔ ∀ c ∈ cs, c ∉ existing) := by
  intro cs
  induction cs with
  | nil => simp [firstExisting]
  | cons c cs ih =>
    by_cases hc : c ∈ existing
    · simp [firstExisting, hc]
    · simp [firstExisting, hc, ih]

/-- `firstExisting` finds `t` exactly when `t` exists and every candidate
before it does not. -/
theorem firstExisting_eq_some_iff (existing : List String) :
    ∀ (cs : List String) (t : String),
    (firstExisting existing cs = some t ↔
      (t ∈ existing ∧ ∃ pre post, cs = pre ++ t :: post ∧ ∀ c ∈ pre, c ∉ existing)) := by
  intro cs
  induction cs with
  | nil =>
    intro t
    constructor
    · intro h
      exact absurd h (by simp [firstExisting])
    · rintro ⟨-, pre, post, hcs, -⟩
      exact absurd hcs (by simp)
  | cons c cs ih =>
    intro t
    by_cases hc : c ∈ existing
    · simp only [firstExisting, if_pos hc]
      constructor
      · intro h
        injection h with h
        subst h
        exact ⟨hc, [], cs, rfl, by simp⟩
      · rintro ⟨ht, pre, post, hcs, hpre⟩
        cases pre with
        | nil =>
          injection hcs with h1 _
          rw [h1]
        | cons p ps =>
          injection hcs with h1 _
          subst h1
          exact absurd hc (hpre c (List.mem_cons_self _ _))
    · simp only [firstExisting, if_neg hc]
      rw [ih t]
      constructor
      · rintro ⟨ht, pre, post, hcs, hpre⟩
        refine ⟨ht, c :: pre, post, by rw [hcs, List.cons_append], ?_⟩
        intro x hx
        rcases List.mem_cons.mp hx with h | h
        · subst h
          exact hc
        · exact hpre x h
      · rintro ⟨ht, pre, post, hcs, hpre⟩
        cases pre with
        | nil =>
          injection hcs with h1 _
          subst h1
          exact absurd ht hc
        | cons p ps =>
          injection hcs with h1 h2
          subst h1
          exact ⟨ht, ps, post, h2, fun x hx => hpre x (List.mem_cons_of_mem _ hx)⟩

/-- `resolveTemplate` succeeds or fails exactly as `firstExisting` does on
the candidate list. -/
theorem resolveTemplate_cases (cfg : SiteConfig) (d : Document) :
    (resolveTemplate cfg d = .error (.templateNotFound d.srcPath) ↔
      firstExisting cfg.templates (templateCandidates cfg d) = none) ∧
    ∀ t, (resolveTemplate cfg d = .ok t ↔
      firstExisting cfg.templates (templateCandidates cfg d) = some t) := by
  unfold resolveTemplate
  cases hf : firstExisting cfg.templates (templateCandidates cfg d) <;> simp

/-- C6: template resolution returns the first existing candidate in the
order explicit reference, per-directory convention, site default, and fails
with `TemplateNotFound` exactly when no candidate exists; concretely, a
document at posts/hello.md with no template key, a site default post.html
that exists and no posts.html resolves to post.html. -/
theorem template_resolution_order :
    (∀ (cfg : SiteConfig) (d : Document),
      (resolveTemplate cfg d = .error (.templateNotFound d.srcPath) ↔
        ∀ c ∈ templateCandidates cfg d, c ∉ cfg.templates) ∧
      ∀ t, (resolveTemplate cfg d = .ok t ↔
        (t ∈ cfg.templates ∧ ∃ pre post, templateCandidates cfg d = pre ++ t :: post ∧
          ∀ c ∈ pre, c ∉ cfg.templates))) ∧
    templateCandidates ⟨"Site", "http://example.org", "out", "post.html", ["post.html"]⟩
        ⟨"posts/hello.md", [], "body"⟩ = ["posts.html", "post.html"] ∧
    resolveTemplate ⟨"Site", "http://example.org", "out", "post.html", ["post.html"]⟩
        ⟨"posts/hello.md", [], "body"⟩ = .ok "post.html" := by
  refine ⟨fun cfg d => ?_, by decide, by decide⟩
  obtain ⟨he, ho⟩ := resolveTemplate_cases cfg d
  exact ⟨he.trans (firstExisting_eq_none_iff _ _),
    fun t => (ho t).trans (firstExisting_eq_some_iff _ _ t)⟩

/-- The write step never emits two pages at one output path, nor a page at
an already-written path. -/
theorem writePagesAux_nodup : ∀ (pages : List RenderedPage) (written : List String),
    ((writePagesAux pages written).1.map RenderedPage.outPath).Nodup ∧
    ∀ p ∈ (writePagesAux pages written).1, p.outPath ∉ written := by
  intro pages
  induction pages with
  | nil =>
    intro written
    exact ⟨List.nodup_nil, by simp [writePagesAux]⟩
  | cons p rest ih =>
    intro written
    by_cases hp : p.outPath ∈ written
    · simp only [writePagesAux, if_pos hp]
      exact ih written
    · simp only [writePagesAux, if_neg hp]
      obtain ⟨hnd, hdisj⟩ := ih (p.outPath :: written)
      refine ⟨?_, ?_⟩
      · simp only [List.map_cons, List.nodup_cons]
        refine ⟨fun hmem => ?_, hnd⟩
        obtain ⟨q, hq, hqe⟩ := List.mem_map.mp hmem
        exact hdisj q hq (List.mem_cons.mpr (Or.inl hqe))
      · intro q hq
        rcases List.mem_cons.mp hq with h | h
        · rw [h]
          exact hp
        · exact fun hw => hdisj q h (List.mem_cons_of_mem _ hw)

/-- When the write step records no error, the input pages had pairwise
distinct output paths, all outside the already-written set. -/
theorem writePagesAux_noerr : ∀ (pages : List RenderedPage) (written : List String),
    (writePagesAux pages written).2 = [] →
    (pages.map RenderedPage.outPath).Nodup ∧ ∀ p ∈ pages, p.outPath ∉ written := by
  intro pages
  induction pages with
  | nil =>
    intro written _
    exact ⟨List.nodup_nil, by simp⟩
  | cons p rest ih =>
    intro written h
    by_cases hp : p.outPath ∈ written
    · simp only [writePagesAux, if_pos hp] at h
      exact absurd h (by simp)
    · simp only [writePagesAux, if_neg hp] at h
      obtain ⟨hnd, hdisj⟩ := ih (p.outPath :: written) h
      refine ⟨?_, ?_⟩
      · simp only [List.map_cons, List.nodup_cons]
        refine ⟨fun hmem => ?_, hnd⟩
        obtain ⟨q, hq, hqe⟩ := List.mem_map.mp hmem
        exact hdisj q hq (List.mem_cons.mpr (Or.inl hqe))
      · intro q hq
        rcases List.mem_cons.mp hq with h' | h'
        · rw [h']
          exact hp
        · exact fun hw => hdisj q h' (List.mem_cons_of_mem _ hw)

/-- Every error the write step records is a `WriteError`. -/
theorem writePagesAux_errors_are_write : ∀ (pages : List RenderedPage) (written : List String),
    ∀ e ∈ (writePagesAux pages written).2, ∃ q, e = BuildError.writeError q := by
  intro pages
  induction pages with
  | nil =>
    intro written e he
    exact absurd he (by simp [writePagesAux])
  | cons p rest ih =>
    intro written e he
    by_cases hp : p.outPath ∈ written
    · simp only [writePagesAux, if_pos hp] at he
      rcases List.mem_cons.mp he with h | h
      · exact ⟨p.outPath, h⟩
      · exact ih written e h
    · simp only [writePagesAux, if_neg hp] at he
      exact ih _ e he

/-- C4: output paths are unique across a built Site — the written output
tree never holds two pages at one path — and when two rendered pages derive
the same output path an explicit `WriteError` is recorded, never a silent
overwrite of one page by the other. -/
theorem output_paths_unique (t : SourceTree) :
    ((pipelineResult t).outputs.map RenderedPage.outPath).Nodup ∧
    (¬((renderedPages t).map RenderedPage.outPath).Nodup →
      ∃ q, BuildError.writeError q ∈ (pipelineResult t).errors) := by
  constructor
  · exact (writePagesAux_nodup (renderedPages t) []).1
  · intro hcol
    cases hw : (writeAll (renderedPages t)).2 with
    | nil => exact absurd (writePagesAux_noerr (renderedPages t) [] hw).1 hcol
    | cons e errs =>
      have he : e ∈ (writePagesAux (renderedPages t) []).2 := by
        rw [show (writePagesAux (renderedPages t) []).2 = e :: errs from hw]
        exact List.mem_cons_self _ _
      obtain ⟨q, hq⟩ := writePagesAux_errors_are_write (renderedPages t) [] e he
      refine ⟨q, ?_⟩
      have hmem : e ∈ (pipelineResult t).errors := by
        simp only [pipelineResult]
        exact List.mem_append_right _ he
      rwa [hq] at hmem

/-- Loading splits the files exactly into documents and errors. -/
theorem loadAll_length : ∀ files : List SourceFile,
    (loadAll files).1.length + (loadAll files).2.length = files.length := by
  intro files
  induction files with
  | nil => rfl
  | cons f rest ih =>
    cases h : loadDocument f <;>
      simp only [loadAll, h, List.length_cons] <;> omega

/-- Rendering splits the documents exactly into pages and errors. -/
theorem renderAll_length (cfg : SiteConfig) : ∀ docs : List Document,
    (renderAll cfg docs).1.length + (renderAll cfg docs).2.length = docs.length := by
  intro docs
  induction docs with
  | nil => rfl
  | cons d rest ih =>
    cases h : renderDocument cfg d <;>
      simp only [renderAll, h, List.length_cons] <;> omega

/-- Writing splits the pages exactly into written pages and errors. -/
theorem writePagesAux_length : ∀ (pages : List RenderedPage) (written : List String),
    (writePagesAux pages written).1.length + (writePagesAux pages written).2.length =
      pages.length := by
  intro pages
  induction pages with
  | nil => intro written; rfl
  | cons p rest ih =>
    intro written
    by_cases hp : p.outPath ∈ written
    · simp only [writePagesAux, if_pos hp, List.length_cons]
      have := ih written
      omega
    · simp only [writePagesAux, if_neg hp, List.length_cons]
      have := ih (p.outPath :: written)
      omega

/-- Every source tree drives the pipeline from `Idle` to `Done` with the
composed best-effort result. -/
theorem pipeline_runs_to_done (t : SourceTree) :
    BRun (.idle t) (.done (pipelineResult t)) := by
  have s5 := BStep.write (renderAll t.config (chron (loadAll t.files).1)).1
    ((loadAll t.files).2 ++ (renderAll t.config (chron (loadAll t.files).1)).2)
  exact Relation.ReflTransGen.head (BStep.start t)
    (Relation.ReflTransGen.head (BStep.load t)
      (Relation.ReflTransGen.head (BStep.model t.config (loadAll t.files).1 (loadAll t.files).2)
        (Relation.ReflTransGen.head
          (BStep.render t.config (chron (loadAll t.files).1) (loadAll t.files).2)
          (Relation.ReflTransGen.head s5 Relation.ReflTransGen.refl))))

/-- C3: loader errors are recorded per-file and never abort the pass: a
3-file source tree whose load yields exactly one malformed-metadata error,
with no failure downstream, builds exactly 2 rendered pages and 1 recorded
error, reaches `Done`, and reports overall success false. -/
theorem one_malformed_of_three (t : SourceTree) (badPath : String)
    (h3 : t.files.length = 3)
    (hload : (loadAll t.files).2 = [BuildError.malformedMetadata badPath])
    (hrender : (renderAll t.config (chron (loadAll t.files).1)).2 = [])
    (hwrite : (writeAll (renderedPages t)).2 = []) :
    (pipelineResult t).outputs.length = 2 ∧
    (pipelineResult t).errors.length = 1 ∧
    BRun (.idle t) (.done (pipelineResult t)) ∧
    overallSuccess (pipelineResult t) = false := by
  have hl := loadAll_length t.files
  rw [h3, hload] at hl
  have hdocs : (loadAll t.files).1.length = 2 := by
    simp at hl
    omega
  have hchron : (chron (loadAll t.files).1).length = 2 := by
    unfold chron
    rw [List.length_insertionSort]
    exact hdocs
  have hr := renderAll_length t.config (chron (loadAll t.files).1)
  rw [hchron, hrender] at hr
  have hpages : (renderedPages t).length = 2 := by
    unfold renderedPages
    simp at hr
    omega
  have hw := writePagesAux_length (renderedPages t) []
  rw [hpages] at hw
  refine ⟨?_, ?_, pipeline_runs_to_done t, ?_⟩
  · show (writeAll (renderedPages t)).1.length = 2
    have : (writeAll (renderedPages t)).2.length = 0 := by rw [hwrite]; rfl
    unfold writeAll at this ⊢
    omega
  · show (((loadAll t.files).2 ++ (renderAll t.config (chron (loadAll t.files).1)).2)
      ++ (writeAll (renderedPages t)).2).length = 1
    rw [hload, hrender, hwrite]
    rfl
  · show (((loadAll t.files).2 ++ (renderAll t.config (chron (loadAll t.files).1)).2)
      ++ (writeAll (renderedPages t)).2).isEmpty = false
    rw [hload, hrender, hwrite]
    rfl

/-- Witness for C3 at the sample three-file tree. -/
theorem one_malformed_of_three_witness :
    (pipelineResult sampleTree3).outputs.length = 2 ∧
    (pipelineResult sampleTree3).errors.length = 1 ∧
    BRun (.idle sampleTree3) (.done (pipelineResult sampleTree3)) ∧
    overallSuccess (pipelineResult sampleTree3) = false :=
  one_malformed_of_three sampleTree3 "bad.md" (by decide) (by decide) (by decide) (by decide)

/-- Equal sort keys force equal source paths. -/
theorem srcPath_eq_of_docKey_eq {a b : Document} (h : docKey a = docKey b) :
    a.srcPath = b.srcPath :=
  congrArg Prod.snd (toLex.injective h)

/-- A chronologically sorted document list with pairwise-distinct source
paths is strictly sorted by key. -/
theorem sorted_strict_of_nodup {m : List Document}
    (hs : List.Sorted docLe m) (hn : (m.map Document.srcPath).Nodup) :
    m.Pairwise (fun a b => docKey a < docKey b) := by
  have hne : m.Pairwise (fun a b => a.srcPath ≠ b.srcPath) := List.pairwise_map.mp hn
  refine (hs.and hne).imp ?_
  rintro a b ⟨hle, hnePath⟩
  exact lt_of_le_of_ne hle fun he => hnePath (srcPath_eq_of_docKey_eq he)

/-- The chronological ordering is canonical: permuting the discovered
documents does not change it, as long as source paths are distinct. -/
theorem chron_eq_of_perm {l1 l2 : List Document} (hp : l1.Perm l2)
    (hn : (l1.map Document.srcPath).Nodup) : chron l1 = chron l2 := by
  haveI : IsTotal Document docLe := ⟨fun a b => le_total (docKey a) (docKey b)⟩
  haveI : IsTrans Document docLe := ⟨fun a b c h1 h2 => le_trans h1 h2⟩
  haveI : IsAntisymm Document (fun a b => docKey a < docKey b) :=
    ⟨fun a b h1 h2 => absurd (lt_trans h1 h2) (lt_irrefl _)⟩
  have hperm : (chron l1).Perm (chron l2) :=
    ((List.perm_insertionSort docLe l1).trans hp).trans
      (List.perm_insertionSort docLe l2).symm
  have hn1 : ((chron l1).map Document.srcPath).Nodup :=
    (((List.perm_insertionSort docLe l1).map Document.srcPath).nodup_iff).mpr hn
  have hn2 : ((chron l2).map Document.srcPath).Nodup :=
    ((hperm.map Document.srcPath).nodup_iff).mp hn1
  exact List.eq_of_perm_of_sorted hperm
    (sorted_strict_of_nodup (List.sorted_insertionSort docLe l1) hn1)
    (sorted_strict_of_nodup (List.sorted_insertionSort docLe l2) hn2)

/-- C7: the SiteModel's derived structures are pure functions of the
Document set — for any two discovery orders of the same documents (with
their distinct source paths), the tag index and the date-sorted next chain
are identical. -/
theorem sitemodel_perm_invariant (l1 l2 : List Document) (hp : l1.Perm l2)
    (hn : (l1.map Document.srcPath).Nodup) :
    tagIndex l1 = tagIndex l2 ∧ nextChain l1 = nextChain l2 := by
  have hc := chron_eq_of_perm hp hn
  constructor
  · unfold tagIndex siteTags
    rw [hc]
  · unfold nextChain
    rw [hc]

/-- Witness for C7 on two discovery orders of the same two documents. -/
theorem sitemodel_perm_invariant_witness :
    tagIndex [docA, docC] = tagIndex [docC, docA] ∧
    nextChain [docA, docC] = nextChain [docC, docA] :=
  sitemodel_perm_invariant [docA, docC] [docC, docA]
    (List.Perm.swap docC docA []) (by decide)

/-- Each pipeline state has at most one successor: the step relation is
deterministic. -/
theorem bstep_deterministic {s s1 s2 : BuildState}
    (h1 : BStep s s1) (h2 : BStep s s2) : s1 = s2 := by
  cases h1 <;> cases h2 <;> rfl

/-- `Done` is terminal: no step leaves it. -/
theorem done_no_step {r : BuildResult} {s : BuildState} (h : BStep (.done r) s) :
    False := by
  cases h

/-- Runs of a deterministic step relation that both end in `Done` agree. -/
theorem brun_done_unique : ∀ (s : BuildState) (r r' : BuildResult),
    Relation.ReflTransGen BStep s (.done r) →
    Relation.ReflTransGen BStep s (.done r') → r = r' := by
  intro s r r' hr
  induction hr using Relation.ReflTransGen.head_induction_on with
  | refl =>
    intro hr'
    rcases hr'.cases_head with he | ⟨c, hstep, -⟩
    · injection he
    · exact absurd hstep done_no_step
  | head hstep hrest ih =>
    intro hr'
    rcases hr'.cases_head with he | ⟨c, hstep', hrest'⟩
    · rw [he] at hstep
      exact absurd hstep done_no_step
    · rw [← bstep_deterministic hstep hstep'] at hrest'
      exact ih hrest'

/-- C2: the whole pipeline is deterministic across runs — two complete runs
of the BuildPipeline from `Idle` on the same source tree end in the same
result, and in particular in byte-identical output trees. -/
theorem pipeline_two_run_deterministic (t : SourceTree) (r1 r2 : BuildResult)
    (h1 : BRun (.idle t) (.done r1)) (h2 : BRun (.idle t) (.done r2)) :
    r1 = r2 ∧ r1.outputs = r2.outputs := by
  have he := brun_done_unique (.idle t) r1 r2 h1 h2
  exact ⟨he, by rw [he]⟩

/-- Witness for C2: two runs over the sample tree, both reaching `Done`. -/
theorem pipeline_two_run_deterministic_witness :
    pipelineResult sampleTree3 = pipelineResult sampleTree3 ∧
    (pipelineResult sampleTree3).outputs = (pipelineResult sampleTree3).outputs :=
  pipeline_two_run_deterministic sampleTree3 (pipelineResult sampleTree3)
    (pipelineResult sampleTree3) (pipeline_runs_to_done sampleTree3)
    (pipeline_runs_to_done sampleTree3)
